import Mathlib

/-!
Verification of the task-analyzer scoring core (`src/tasks/scoring.py`,
class `TaskScorer`), shallowly embedded in Lean 4.

Modelling conventions:
* Numbers are rationals (`ℚ`); Python's `round(x, 2)` is modelled as
  round-half-to-even at two decimal places over `ℚ`.
* A task's `due_date` field is modelled by the number of whole days between
  the (parsed) due date and today: `some d` stands for a present, parseable
  date lying `d` days in the future (negative `d` = overdue), while `none`
  stands for a missing, unparsable or wrong-typed value, for which
  `calculate_urgency_score`'s exception handler returns the neutral 5.0.
* `importance` and `estimated_hours` are `Option ℚ`: `none` covers a missing
  value or one on which Python's `float()` raises.
* Task identifiers are natural numbers.  The transport layer
  (`_normalize_tasks` in `src/tasks/views.py`) guarantees every task handed
  to the core has an identifier, so `id` is a total field here and the
  `task.get('id', task.get('title'))` fallback always yields it.
-/

/-- A task as consumed by the scoring core. -/
structure TaskItem where
  id : Nat
  due_date : Option Int
  importance : Option ℚ
  estimated_hours : Option ℚ
  dependencies : List Nat
deriving DecidableEq

/-- A strategy's weight vector (`_get_weights` dictionaries). -/
structure Weights where
  urgency : ℚ
  importance : ℚ
  effort : ℚ
  dependencies : ℚ
deriving DecidableEq

/-- The four per-factor component scores attached to a scoring result. -/
structure Components where
  urgency : ℚ
  importance : ℚ
  effort : ℚ
  dependencies : ℚ
deriving DecidableEq

/-- The dictionary returned by `TaskScorer.score_task`. -/
structure ScoreResult where
  score : ℚ
  components : Components
  error : Option String
deriving DecidableEq

/-- Round-half-to-even to an integer, the rounding mode of Python's `round`. -/
def roundHalfEven (q : ℚ) : ℤ :=
  let n := ⌊q⌋
  let r := q - n
  if r < 1/2 then n
  else if 1/2 < r then n + 1
  else if n % 2 = 0 then n else n + 1

/-- Python's `round(q, 2)`: round half to even at two decimal places. -/
def round2 (q : ℚ) : ℚ := (roundHalfEven (q * 100) : ℚ) / 100

/-- `TaskScorer._get_weights`: dictionary lookup with default
`smart_balance` (`strategies.get(strategy, strategies['smart_balance'])`). -/
def getWeights (strategy : String) : Weights :=
  if strategy = "smart_balance" then ⟨0.35, 0.30, 0.10, 0.25⟩
  else if strategy = "fastest_wins" then ⟨0.20, 0.20, 0.50, 0.10⟩
  else if strategy = "high_impact" then ⟨0.15, 0.60, 0.05, 0.20⟩
  else if strategy = "deadline_driven" then ⟨0.70, 0.15, 0.05, 0.10⟩
  else ⟨0.35, 0.30, 0.10, 0.25⟩

/-- `TaskScorer.calculate_urgency_score`, on the days-until-due view of the
input.  `none` is the `except` branch (missing/unparsable date → 5.0). -/
def calculate_urgency_score (due : Option Int) : ℚ :=
  match due with
  | none => 5
  | some days_until =>
    if days_until < 0 then min 10 (10 + |(days_until : ℚ)| * 0.1)
    else if days_until = 0 then 9.5
    else if days_until = 1 then 9
    else if days_until ≤ 3 then 8
    else if days_until ≤ 7 then 6
    else if days_until ≤ 14 then 4
    else if days_until ≤ 30 then 2
    else max 0 (2 - ((days_until : ℚ) - 30) / 30)

/-- `TaskScorer.calculate_importance_score`: clamp to [1, 10], default 5.0
when `float()` fails or the field is missing. -/
def calculate_importance_score (importance : Option ℚ) : ℚ :=
  match importance with
  | none => 5
  | some i => max 1 (min 10 i)

/-- `TaskScorer.calculate_effort_score`: bracketed quick-win score, negative
hours clamped to 0, default 5.0 when `float()` fails or missing. -/
def calculate_effort_score (estimated_hours : Option ℚ) : ℚ :=
  match estimated_hours with
  | none => 5
  | some h0 =>
    let hours := if h0 < 0 then 0 else h0
    if hours ≤ 0.5 then 10
    else if hours ≤ 1 then 9
    else if hours ≤ 2 then 8
    else if hours ≤ 4 then 6
    else if hours ≤ 8 then 4
    else if hours ≤ 16 then 2
    else max 0 (2 - (hours - 16) / 8)

/-- `TaskScorer.calculate_dependency_score`: the loop counting every task in
`all_tasks` whose `dependencies` list contains `task_id`, then the bracket
table on the count. -/
def calculate_dependency_score (task_id : Nat) (all_tasks : List TaskItem) : ℚ :=
  let dependent_count :=
    all_tasks.foldl (fun acc task =>
      if task_id ∈ task.dependencies then acc + 1 else acc) (0 : Nat)
  if dependent_count = 0 then 0
  else if dependent_count = 1 then 4
  else if dependent_count = 2 then 7
  else min 10 (7 + ((dependent_count - 2 : Nat) : ℚ) * 1.5)

/-- `TaskScorer.score_task`: the four components blended with the strategy
weights, final score and components rounded to two decimals.  The `except`
branch of the Python function is unreachable for dictionary-shaped input
(every operation in the `try` block is total), so `error` is always `none`. -/
def score_task (strategy : String) (task : TaskItem) (all_tasks : List TaskItem) :
    ScoreResult :=
  let w := getWeights strategy
  let urgency := calculate_urgency_score task.due_date
  let importance := calculate_importance_score task.importance
  let effort := calculate_effort_score task.estimated_hours
  let dependencies := calculate_dependency_score task.id all_tasks
  let final_score :=
    w.urgency * urgency + w.importance * importance +
    w.effort * effort + w.dependencies * dependencies
  { score := round2 final_score
    components :=
      ⟨round2 urgency, round2 importance, round2 effort, round2 dependencies⟩
    error := none }

/-- The mutable state shared by the nested `dfs` closure of
`detect_circular_dependencies`: the `visited` set, the recursion-stack set
and the list of cycle sets found so far. -/
structure DfsState where
  visited : Finset Nat
  recStack : Finset Nat
  cycles : List (Finset Nat)
deriving DecidableEq

/-- The adjacency map built by `detect_circular_dependencies`: Python's
`graph[task_id] = task.get('dependencies', [])` keeps, for each identifier,
the dependencies of the LAST task carrying it (dict assignment overwrites),
and `graph.get(node, [])` yields `[]` for unknown nodes. -/
def graphGet (tasks : List TaskItem) (node : Nat) : List Nat :=
  match tasks.reverse.find? (fun t => t.id == node) with
  | some t => t.dependencies
  | none => []

/-- One call of the recursive `dfs(node, path)` closure, with explicit fuel
(the Python recursion is naturally bounded; the top level supplies enough
fuel).  The call marks `node` visited and on the recursion stack, extends
its private copy of `path`, then runs the `for neighbor in
graph.get(node, [])` loop: recurse on unvisited neighbours (passing a copy
of the current path), and when a neighbour is on the recursion stack record
the cycle set `set(path[path.index(neighbor):] + [neighbor])` unless already
present.  Finally `node` is removed from the recursion stack. -/
def dfsRun (g : Nat → List Nat) : Nat → Nat → List Nat → DfsState → DfsState
  | 0, _, _, st => st
  | fuel + 1, node, path, st =>
    let st1 : DfsState :=
      ⟨insert node st.visited, insert node st.recStack, st.cycles⟩
    let path1 := path ++ [node]
    let st2 := (g node).foldl (fun s neighbor =>
      if neighbor ∉ s.visited then dfsRun g fuel neighbor path1 s
      else if neighbor ∈ s.recStack then
        let cycle :=
          ((path1.drop (path1.indexOf neighbor)) ++ [neighbor]).toFinset
        if cycle ∈ s.cycles then s
        else ⟨s.visited, s.recStack, s.cycles ++ [cycle]⟩
      else s) st1
    ⟨st2.visited, st2.recStack.erase node, st2.cycles⟩

/-- The body of the neighbour loop of `dfsRun`, as a standalone function for
reasoning; `dfsRun_succ` below shows `dfsRun` folds it over the neighbour
list. -/
def dfsStep (g : Nat → List Nat) (fuel : Nat) (path1 : List Nat)
    (s : DfsState) (neighbor : Nat) : DfsState :=
  if neighbor ∉ s.visited then dfsRun g fuel neighbor path1 s
  else if neighbor ∈ s.recStack then
    let cycle := ((path1.drop (path1.indexOf neighbor)) ++ [neighbor]).toFinset
    if cycle ∈ s.cycles then s
    else ⟨s.visited, s.recStack, s.cycles ++ [cycle]⟩
  else s

/-- The body of the `for task in tasks` loop at the end of
`detect_circular_dependencies`, as a standalone function for reasoning. -/
def topStep (g : Nat → List Nat) (fuel : Nat) (st : DfsState)
    (task : TaskItem) : DfsState :=
  if task.id ∉ st.visited then dfsRun g fuel task.id [] st else st

/-- `TaskScorer.detect_circular_dependencies`: build the adjacency map, then
run `dfs` from every not-yet-visited task identifier, in task-list order.
The fuel bound exceeds the number of distinct nodes the traversal can ever
visit, so it is never exhausted. -/
def detect_circular_dependencies (tasks : List TaskItem) : List (Finset Nat) :=
  let g := graphGet tasks
  let fuel := tasks.length + (tasks.map (fun t => t.dependencies.length)).sum + 1
  let final :=
    tasks.foldl (fun st task =>
      if task.id ∉ st.visited then dfsRun g fuel task.id [] st else st)
      ⟨∅, ∅, []⟩
  final.cycles

/-- The `reasons` list accumulated by `TaskScorer.generate_explanation`:
threshold tags per component, then the strategy-specific tag. -/
def explanationReasons (strategy : String) (c : Components) : List String :=
  (if c.urgency ≥ 8 then ["⚠️ Due very soon or overdue"]
   else if c.urgency ≥ 6 then ["📅 Due within a week"]
   else []) ++
  (if c.importance ≥ 8 then ["⭐ High importance"]
   else if c.importance ≥ 6 then ["🔹 Medium-high importance"]
   else []) ++
  (if c.effort ≥ 8 then ["⚡ Quick win (low effort)"] else []) ++
  (if c.dependencies ≥ 7 then ["🔗 Multiple tasks depend on this"]
   else if c.dependencies ≥ 4 then ["🔗 Blocks other tasks"]
   else []) ++
  (if strategy = "fastest_wins" ∧ c.effort ≥ 7 then
     ["🎯 Prioritized as quick win"]
   else if strategy = "high_impact" ∧ c.importance ≥ 7 then
     ["🎯 Prioritized for high impact"]
   else if strategy = "deadline_driven" ∧ c.urgency ≥ 7 then
     ["🎯 Prioritized by deadline"]
   else [])

/-- `TaskScorer.generate_explanation`: join the reasons with " • ", or the
fixed balanced-priority message when no threshold is met.  The `task`
argument is unused, as in the source. -/
def generate_explanation (strategy : String) (_task : TaskItem)
    (score_data : ScoreResult) : String :=
  let reasons := explanationReasons strategy score_data.components
  match reasons with
  | [] => "📊 Balanced priority across all factors"
  | _ => String.intercalate " • " reasons

theorem dfsRun_succ (g : Nat → List Nat) (fuel node : Nat) (path : List Nat)
    (st : DfsState) :
    dfsRun g (fuel + 1) node path st =
      (let st2 := (g node).foldl (dfsStep g fuel (path ++ [node]))
        ⟨insert node st.visited, insert node st.recStack, st.cycles⟩
       ⟨st2.visited, st2.recStack.erase node, st2.cycles⟩) := rfl

/-! ### Range lemmas for the factor scores -/

theorem urgency_score_bounds (due : Option Int) :
    0 ≤ calculate_urgency_score due ∧ calculate_urgency_score due ≤ 10 := by
  rcases due with _ | d
  · norm_num [calculate_urgency_score]
  · simp only [calculate_urgency_score]
    split_ifs with h1 h2 h3 h4 h5 h6 h7
    · exact ⟨le_min (by norm_num) (by nlinarith [abs_nonneg ((d : ℚ))]),
        min_le_left _ _⟩
    · norm_num
    · norm_num
    · norm_num
    · norm_num
    · norm_num
    · norm_num
    · refine ⟨le_max_left _ _, max_le (by norm_num) ?_⟩
      have hd : (30 : ℚ) < (d : ℚ) := by exact_mod_cast not_le.mp h7
      have hq : (0 : ℚ) ≤ ((d : ℚ) - 30) / 30 :=
        div_nonneg (by linarith) (by norm_num)
      linarith

theorem importance_score_bounds (imp : Option ℚ) :
    0 ≤ calculate_importance_score imp ∧ calculate_importance_score imp ≤ 10 := by
  rcases imp with _ | i
  · norm_num [calculate_importance_score]
  · simp only [calculate_importance_score]
    exact ⟨le_trans (by norm_num) (le_max_left _ _),
      max_le (by norm_num) (min_le_left _ _)⟩

theorem effort_score_bounds (hrs : Option ℚ) :
    0 ≤ calculate_effort_score hrs ∧ calculate_effort_score hrs ≤ 10 := by
  rcases hrs with _ | h0
  · norm_num [calculate_effort_score]
  · simp only [calculate_effort_score]
    set hours : ℚ := if h0 < 0 then 0 else h0 with hh
    have hnn : 0 ≤ hours := by
      rw [hh]; split_ifs with hc
      · norm_num
      · exact le_of_not_lt hc
    split_ifs with h1 h2 h3 h4 h5 h6
    · norm_num
    · norm_num
    · norm_num
    · norm_num
    · norm_num
    · norm_num
    · refine ⟨le_max_left _ _, max_le (by norm_num) ?_⟩
      have h16 : (16 : ℚ) < hours := not_le.mp h6
      have hq : (0 : ℚ) ≤ (hours - 16) / 8 :=
        div_nonneg (by linarith) (by norm_num)
      linarith

theorem dependency_score_bounds (task_id : Nat) (all_tasks : List TaskItem) :
    0 ≤ calculate_dependency_score task_id all_tasks ∧
      calculate_dependency_score task_id all_tasks ≤ 10 := by
  simp only [calculate_dependency_score]
  split_ifs
  · norm_num
  · norm_num
  · norm_num
  · exact ⟨le_min (by norm_num) (by positivity), min_le_left _ _⟩

/-! ### Weight-vector and rounding lemmas -/

theorem getWeights_nonneg_sum (s : String) :
    0 ≤ (getWeights s).urgency ∧ 0 ≤ (getWeights s).importance ∧
    0 ≤ (getWeights s).effort ∧ 0 ≤ (getWeights s).dependencies ∧
    (getWeights s).urgency + (getWeights s).importance + (getWeights s).effort +
      (getWeights s).dependencies = 1 := by
  unfold getWeights
  split_ifs <;> norm_num

theorem roundHalfEven_bounds (q : ℚ) :
    ⌊q⌋ ≤ roundHalfEven q ∧ roundHalfEven q ≤ ⌊q⌋ + 1 := by
  simp only [roundHalfEven]
  split_ifs <;> omega

theorem round2_bounds_0_10 (q : ℚ) (h0 : 0 ≤ q) (h10 : q ≤ 10) :
    0 ≤ round2 q ∧ round2 q ≤ 10 := by
  have hb := roundHalfEven_bounds (q * 100)
  by_cases hq : q * 100 = 1000
  · have hr : roundHalfEven (q * 100) = 1000 := by
      rw [hq]; norm_num [roundHalfEven]
    constructor <;> norm_num [round2, hr]
  · have hlt : q * 100 < 1000 := lt_of_le_of_ne (by linarith) hq
    have hfl : ⌊q * 100⌋ ≤ 999 := by
      have h := Int.floor_lt.mpr (show q * 100 < ((1000 : ℤ) : ℚ) by exact_mod_cast hlt)
      omega
    have hfl0 : (0 : ℤ) ≤ ⌊q * 100⌋ := Int.floor_nonneg.mpr (by positivity)
    unfold round2
    constructor
    · apply div_nonneg _ (by norm_num)
      exact_mod_cast le_trans hfl0 hb.1
    · rw [div_le_iff₀ (by norm_num : (0 : ℚ) < 100)]
      have hle : roundHalfEven (q * 100) ≤ 1000 := by omega
      calc ((roundHalfEven (q * 100) : ℤ) : ℚ) ≤ 1000 := by exact_mod_cast hle
        _ = 10 * 100 := by norm_num

/-! ### Claim theorems: urgency policy and strategy weights -/

/-- C10: for every due date strictly before today, `calculate_urgency_score`
returns exactly 10.0 — the overdue score is constant, not increasing with the
number of overdue days. -/
theorem C10_overdue_urgency_constant_ten (d : ℤ) (hd : d < 0) :
    calculate_urgency_score (some d) = 10 := by
  simp only [calculate_urgency_score, if_pos hd]
  exact min_eq_left (by nlinarith [abs_nonneg ((d : ℚ))])

/-- Witness for C10 at a date 42 days overdue. -/
theorem C10_overdue_urgency_constant_ten_witness :
    calculate_urgency_score (some (-42)) = 10 :=
  C10_overdue_urgency_constant_ten (-42) (by decide)

/-- C4 counterexample: the overdue urgency score does NOT increase as the
task becomes more overdue — 1 day overdue and 10 days overdue both score
exactly 10. -/
theorem C4_counterexample_not_increasing :
    calculate_urgency_score (some (-1)) = 10 ∧
    calculate_urgency_score (some (-10)) = 10 ∧
    ¬ calculate_urgency_score (some (-1)) < calculate_urgency_score (some (-10)) := by
  norm_num [calculate_urgency_score]

/-- C4 (amended): for every overdue due date (`days_until < 0`),
`calculate_urgency_score` returns `min(10, 10 + |days_until| * 0.1)`, which
equals exactly 10.0 (the cap makes the overdue score constant rather than
increasing); in particular for a due date exactly 5 days in the past the
score is at least 10.0 and at most 10.5. -/
theorem C4_overdue_formula (d : ℤ) (hd : d < 0) :
    calculate_urgency_score (some d) = min 10 (10 + |(d : ℚ)| * 0.1) ∧
    calculate_urgency_score (some d) = 10 ∧
    10 ≤ calculate_urgency_score (some (-5)) ∧
    calculate_urgency_score (some (-5)) ≤ 10.5 := by
  refine ⟨by simp only [calculate_urgency_score, if_pos hd], ?_,
    by norm_num [calculate_urgency_score], by norm_num [calculate_urgency_score]⟩
  simp only [calculate_urgency_score, if_pos hd]
  exact min_eq_left (by nlinarith [abs_nonneg ((d : ℚ))])

/-- Witness for the amended C4 at a date 3 days overdue. -/
theorem C4_overdue_formula_witness :
    (-3 : ℤ) < 0 ∧ calculate_urgency_score (some (-3)) = 10 :=
  ⟨by decide, (C4_overdue_formula (-3) (by decide)).2.1⟩

/-- C6: strategy resolution maps the four known strategy names to their
exact weight vectors, and every unrecognized name resolves to the
`smart_balance` weights (no error is possible). -/
theorem C6_strategy_weight_vectors :
    getWeights "smart_balance" = ⟨0.35, 0.30, 0.10, 0.25⟩ ∧
    getWeights "fastest_wins" = ⟨0.20, 0.20, 0.50, 0.10⟩ ∧
    getWeights "high_impact" = ⟨0.15, 0.60, 0.05, 0.20⟩ ∧
    getWeights "deadline_driven" = ⟨0.70, 0.15, 0.05, 0.10⟩ ∧
    ∀ s : String, s ≠ "smart_balance" → s ≠ "fastest_wins" → s ≠ "high_impact" →
      s ≠ "deadline_driven" → getWeights s = ⟨0.35, 0.30, 0.10, 0.25⟩ := by
  refine ⟨by simp [getWeights], by simp [getWeights], by simp [getWeights],
    by simp [getWeights], ?_⟩
  intro s h1 h2 h3 h4
  simp [getWeights, h1, h2, h3, h4]

/-- Witness for C6 at the unrecognized strategy name "priority_mode". -/
theorem C6_strategy_weight_vectors_witness :
    getWeights "priority_mode" = ⟨0.35, 0.30, 0.10, 0.25⟩ :=
  C6_strategy_weight_vectors.2.2.2.2 "priority_mode" (by decide) (by decide)
    (by decide) (by decide)

/-! ### Dependency fan-in counting -/

theorem foldl_count_eq_countP (task_id : Nat) (tasks : List TaskItem) (n : Nat) :
    tasks.foldl (fun acc task =>
        if task_id ∈ task.dependencies then acc + 1 else acc) n =
      n + tasks.countP (fun t => decide (task_id ∈ t.dependencies)) := by
  induction tasks generalizing n with
  | nil => simp
  | cons t rest ih =>
    simp only [List.foldl_cons, List.countP_cons, ih]
    by_cases h : task_id ∈ t.dependencies
    · simp [h]
      omega
    · simp [h]

/-- C3 counterexample: for the single task `{id: 1, dependencies: [1]}` the
code counts the task itself (its own dependency list contains its id) and
returns 4.0, while the number of OTHER tasks whose dependencies contain 1 is
zero, for which the claim demands 0.0. -/
theorem C3_counterexample_self_dependency :
    calculate_dependency_score 1 [⟨1, none, none, none, [1]⟩] = 4 ∧
    List.countP (fun t => decide (1 ∈ t.dependencies ∧ t.id ≠ 1))
      [(⟨1, none, none, none, [1]⟩ : TaskItem)] = 0 ∧
    (4 : ℚ) ≠ 0 := by
  refine ⟨by norm_num [calculate_dependency_score], by decide, by norm_num⟩

/-- C3 (amended): `calculate_dependency_score` counts `dependent_count` as
the number of tasks in the list — including, possibly, the task itself —
whose `dependencies` list contains the identifier (direct fan-in, not
transitive), and returns 0.0 if the count is 0, 4.0 if 1, 7.0 if 2, and
`min(10, 7 + (count-2)*1.5)` if greater than 2. -/
theorem C3_dependency_fan_in_policy (task_id : Nat) (tasks : List TaskItem) :
    (tasks.countP (fun t => decide (task_id ∈ t.dependencies)) = 0 →
      calculate_dependency_score task_id tasks = 0) ∧
    (tasks.countP (fun t => decide (task_id ∈ t.dependencies)) = 1 →
      calculate_dependency_score task_id tasks = 4) ∧
    (tasks.countP (fun t => decide (task_id ∈ t.dependencies)) = 2 →
      calculate_dependency_score task_id tasks = 7) ∧
    (2 < tasks.countP (fun t => decide (task_id ∈ t.dependencies)) →
      calculate_dependency_score task_id tasks =
        min 10 (7 + ((tasks.countP (fun t => decide (task_id ∈ t.dependencies))
          - 2 : Nat) : ℚ) * 1.5)) := by
  simp only [calculate_dependency_score, foldl_count_eq_countP, Nat.zero_add]
  set c := tasks.countP (fun t => decide (task_id ∈ t.dependencies)) with hc
  refine ⟨fun h => by simp [h], fun h => by simp [h], fun h => by simp [h],
    fun h => ?_⟩
  rw [if_neg (by omega), if_neg (by omega), if_neg (by omega)]

/-- Witness for the amended C3: one task depends on identifier 2, so the
score is 4.0. -/
theorem C3_dependency_fan_in_policy_witness :
    calculate_dependency_score 2 [⟨1, none, none, none, [2]⟩] = 4 :=
  (C3_dependency_fan_in_policy 2 [⟨1, none, none, none, [2]⟩]).2.1 (by decide)

/-! ### Aggregation -/

theorem score_task_score_bounds (strategy : String) (t : TaskItem)
    (ts : List TaskItem) :
    0 ≤ (score_task strategy t ts).score ∧ (score_task strategy t ts).score ≤ 10 := by
  obtain ⟨w1, w2, w3, w4, wsum⟩ := getWeights_nonneg_sum strategy
  obtain ⟨hu1, hu2⟩ := urgency_score_bounds t.due_date
  obtain ⟨hi1, hi2⟩ := importance_score_bounds t.importance
  obtain ⟨he1, he2⟩ := effort_score_bounds t.estimated_hours
  obtain ⟨hd1, hd2⟩ := dependency_score_bounds t.id ts
  have hS0 : 0 ≤ (getWeights strategy).urgency * calculate_urgency_score t.due_date +
      (getWeights strategy).importance * calculate_importance_score t.importance +
      (getWeights strategy).effort * calculate_effort_score t.estimated_hours +
      (getWeights strategy).dependencies * calculate_dependency_score t.id ts :=
    add_nonneg (add_nonneg (add_nonneg (mul_nonneg w1 hu1) (mul_nonneg w2 hi1))
      (mul_nonneg w3 he1)) (mul_nonneg w4 hd1)
  have hS10 : (getWeights strategy).urgency * calculate_urgency_score t.due_date +
      (getWeights strategy).importance * calculate_importance_score t.importance +
      (getWeights strategy).effort * calculate_effort_score t.estimated_hours +
      (getWeights strategy).dependencies * calculate_dependency_score t.id ts ≤ 10 := by
    have b1 := mul_le_mul_of_nonneg_left hu2 w1
    have b2 := mul_le_mul_of_nonneg_left hi2 w2
    have b3 := mul_le_mul_of_nonneg_left he2 w3
    have b4 := mul_le_mul_of_nonneg_left hd2 w4
    nlinarith [wsum]
  exact round2_bounds_0_10 _ hS0 hS10

/-- C2: for every strategy, task and task list whose four component scores
each lie in [0,10], `score_task` returns a final score equal to the
strategy-weighted sum of the four components rounded to 2 decimal places,
and this final score lies in [0,10]. -/
theorem C2_weighted_aggregation (strategy : String) (task : TaskItem)
    (all_tasks : List TaskItem)
    (_hu : calculate_urgency_score task.due_date ∈ Set.Icc (0 : ℚ) 10)
    (_hi : calculate_importance_score task.importance ∈ Set.Icc (0 : ℚ) 10)
    (_he : calculate_effort_score task.estimated_hours ∈ Set.Icc (0 : ℚ) 10)
    (_hd : calculate_dependency_score task.id all_tasks ∈ Set.Icc (0 : ℚ) 10) :
    (score_task strategy task all_tasks).score =
      round2 ((getWeights strategy).urgency * calculate_urgency_score task.due_date +
        (getWeights strategy).importance * calculate_importance_score task.importance +
        (getWeights strategy).effort * calculate_effort_score task.estimated_hours +
        (getWeights strategy).dependencies * calculate_dependency_score task.id all_tasks) ∧
    0 ≤ (score_task strategy task all_tasks).score ∧
    (score_task strategy task all_tasks).score ≤ 10 :=
  ⟨rfl, (score_task_score_bounds strategy task all_tasks).1,
    (score_task_score_bounds strategy task all_tasks).2⟩

/-- Witness for C2 at a concrete fully-populated task. -/
theorem C2_weighted_aggregation_witness :
    0 ≤ (score_task "smart_balance" ⟨1, some 0, some 10, some 2, []⟩
      [⟨1, some 0, some 10, some 2, []⟩]).score :=
  (C2_weighted_aggregation "smart_balance" ⟨1, some 0, some 10, some 2, []⟩
    [⟨1, some 0, some 10, some 2, []⟩]
    (Set.mem_Icc.mpr (urgency_score_bounds _))
    (Set.mem_Icc.mpr (importance_score_bounds _))
    (Set.mem_Icc.mpr (effort_score_bounds _))
    (Set.mem_Icc.mpr (dependency_score_bounds _ _))).2.1

/-- C7: for task A (due today, importance 10, 2 estimated hours, no
dependencies), B (due in 30 days, importance 4, 1 hour, no dependencies) and
C (due in 7 days, importance 9, 8 hours, no dependencies), scoring with the
`smart_balance` strategy gives A a strictly higher final score than both B
and C, so A ranks first. -/
theorem C7_smart_balance_ranks_A_first :
    (score_task "smart_balance" ⟨2, some 30, some 4, some 1, []⟩
        [⟨1, some 0, some 10, some 2, []⟩, ⟨2, some 30, some 4, some 1, []⟩,
         ⟨3, some 7, some 9, some 8, []⟩]).score <
      (score_task "smart_balance" ⟨1, some 0, some 10, some 2, []⟩
        [⟨1, some 0, some 10, some 2, []⟩, ⟨2, some 30, some 4, some 1, []⟩,
         ⟨3, some 7, some 9, some 8, []⟩]).score ∧
    (score_task "smart_balance" ⟨3, some 7, some 9, some 8, []⟩
        [⟨1, some 0, some 10, some 2, []⟩, ⟨2, some 30, some 4, some 1, []⟩,
         ⟨3, some 7, some 9, some 8, []⟩]).score <
      (score_task "smart_balance" ⟨1, some 0, some 10, some 2, []⟩
        [⟨1, some 0, some 10, some 2, []⟩, ⟨2, some 30, some 4, some 1, []⟩,
         ⟨3, some 7, some 9, some 8, []⟩]).score := by
  norm_num [score_task, getWeights, calculate_urgency_score,
    calculate_importance_score, calculate_effort_score,
    calculate_dependency_score, round2, roundHalfEven]

/-- C5: scoring is total — a batch of N tasks always yields N results, the
factor functions substitute the documented neutral default 5.0 on
missing/malformed input, and for EVERY input (however malformed the modelled
fields) `score_task` returns a result whose score is in [0,10] with no
error, never propagating a failure. -/
theorem C5_always_produce_result (strategy : String) (tasks : List TaskItem) :
    (tasks.map (fun t => score_task strategy t tasks)).length = tasks.length ∧
    calculate_urgency_score none = 5 ∧
    calculate_importance_score none = 5 ∧
    calculate_effort_score none = 5 ∧
    ∀ (t : TaskItem) (ts : List TaskItem),
      0 ≤ (score_task strategy t ts).score ∧
      (score_task strategy t ts).score ≤ 10 ∧
      (score_task strategy t ts).error = none :=
  ⟨List.length_map _ _, rfl, rfl, rfl, fun t ts =>
    ⟨(score_task_score_bounds strategy t ts).1,
     (score_task_score_bounds strategy t ts).2, rfl⟩⟩

/-! ### Explanation generation -/

theorem intercalate_go_length (sep : String) (as : List String) :
    ∀ acc : String, acc.length ≤ (String.intercalate.go acc sep as).length := by
  induction as with
  | nil => intro acc; exact le_refl _
  | cons a rest ih =>
    intro acc
    calc acc.length ≤ (acc ++ sep ++ a).length := by
          simp only [String.length_append]
          omega
      _ ≤ (String.intercalate.go (acc ++ sep ++ a) sep rest).length := ih _
      _ = (String.intercalate.go acc sep (a :: rest)).length := rfl

theorem intercalate_ne_empty_of_head (sep a : String) (as : List String)
    (ha : a ≠ "") : String.intercalate sep (a :: as) ≠ "" := by
  intro h
  have h1 : a.length ≤ (String.intercalate sep (a :: as)).length :=
    intercalate_go_length sep as a
  rw [h] at h1
  have h2 : a.length = 0 := Nat.le_zero.mp h1
  apply ha
  cases a with
  | mk data =>
    cases data with
    | nil => rfl
    | cons c l => simp [String.length] at h2

theorem mem_explanationReasons_ne_empty (strategy : String) (c : Components)
    (r : String) (hr : r ∈ explanationReasons strategy c) : r ≠ "" := by
  unfold explanationReasons at hr
  simp only [List.mem_append] at hr
  rcases hr with ((((h | h) | h) | h) | h) <;> split_ifs at h <;>
    simp only [List.mem_singleton, List.not_mem_nil] at h <;> subst h <;> decide

/-- C8: for every strategy, task and score components, `generate_explanation`
returns a non-empty string — the threshold-met tags joined into a single
display string, or, when no component crosses any threshold, the fixed
"balanced priority" message. -/
theorem C8_explanation_never_empty (strategy : String) (t : TaskItem)
    (res : ScoreResult) :
    generate_explanation strategy t res ≠ "" ∧
    (explanationReasons strategy res.components = [] →
      generate_explanation strategy t res =
        "📊 Balanced priority across all factors") ∧
    (∀ a l, explanationReasons strategy res.components = a :: l →
      generate_explanation strategy t res =
        String.intercalate " • " (a :: l)) := by
  refine ⟨?_, ?_, ?_⟩
  · rcases hr : explanationReasons strategy res.components with _ | ⟨a, l⟩
    · simp only [generate_explanation, hr]
      decide
    · have ha : a ≠ "" := mem_explanationReasons_ne_empty strategy res.components a
        (by rw [hr]; exact List.mem_cons_self a l)
      simp only [generate_explanation, hr]
      exact intercalate_ne_empty_of_head _ _ _ ha
  · intro h
    simp only [generate_explanation, h]
  · intro a l hal
    simp only [generate_explanation, hal]

theorem explanationReasons_all_zero :
    explanationReasons "smart_balance" ⟨0, 0, 0, 0⟩ = [] := by
  norm_num [explanationReasons]

/-- Witness for C8: with all components zero no threshold is met and the
fixed balanced-priority message is returned. -/
theorem C8_explanation_never_empty_witness :
    generate_explanation "smart_balance" ⟨1, none, none, none, []⟩
        ⟨0, ⟨0, 0, 0, 0⟩, none⟩ =
      "📊 Balanced priority across all factors" :=
  (C8_explanation_never_empty "smart_balance" ⟨1, none, none, none, []⟩
    ⟨0, ⟨0, 0, 0, 0⟩, none⟩).2.1 explanationReasons_all_zero

/-! ### Cycle detection: concrete behaviour -/

theorem detect_eq_foldl_topStep (tasks : List TaskItem) :
    detect_circular_dependencies tasks =
      (tasks.foldl
        (topStep (graphGet tasks)
          (tasks.length + (tasks.map (fun t => t.dependencies.length)).sum + 1))
        ⟨∅, ∅, []⟩).cycles := rfl

/-- C1: for the task graph `{1: [2], 2: [1]}` (task 1 depends on task 2 and
vice versa) `detect_circular_dependencies` returns exactly one cycle, the
set `{1, 2}`; for the strictly linear chain `{1: [], 2: [1], 3: [2]}` it
returns the empty list. -/
theorem C1_cycle_detection_mutual_and_chain :
    detect_circular_dependencies
        [⟨1, none, none, none, [2]⟩, ⟨2, none, none, none, [1]⟩] =
      [({1, 2} : Finset Nat)] ∧
    detect_circular_dependencies
        [⟨1, none, none, none, []⟩, ⟨2, none, none, none, [1]⟩,
         ⟨3, none, none, none, [2]⟩] = [] := by
  constructor
  · decide
  · decide

/-- C9 counterexample: with two tasks sharing identifier 1, the first of
which depends on itself, the dictionary `graph[task_id] = dependencies`
keeps only the last task's (empty) dependency list, so the self-loop is
lost and no cycle at all is reported. -/
theorem C9_counterexample_duplicate_ids :
    (⟨1, none, none, none, [1]⟩ : TaskItem).id ∈
      (⟨1, none, none, none, [1]⟩ : TaskItem).dependencies ∧
    detect_circular_dependencies
      [⟨1, none, none, none, [1]⟩, ⟨1, none, none, none, []⟩] = [] := by
  constructor
  · decide
  · decide

/-! ### Cycle detection: invariants of the depth-first traversal -/

theorem dfsStep_cases (g : Nat → List Nat) (fuel : Nat) (path1 : List Nat)
    (s : DfsState) (nb : Nat) :
    (dfsStep g fuel path1 s nb = dfsRun g fuel nb path1 s ∧ nb ∉ s.visited) ∨
    ((dfsStep g fuel path1 s nb).visited = s.visited ∧
      (dfsStep g fuel path1 s nb).recStack = s.recStack ∧
      ∃ tail, (dfsStep g fuel path1 s nb).cycles = s.cycles ++ tail) := by
  unfold dfsStep
  by_cases hv : nb ∉ s.visited
  · exact Or.inl ⟨if_pos hv, hv⟩
  · rw [if_neg hv]
    by_cases hr : nb ∈ s.recStack
    · rw [if_pos hr]
      by_cases hc : ((path1.drop (path1.indexOf nb)) ++ [nb]).toFinset ∈ s.cycles
      · refine Or.inr ?_
        show (if ((path1.drop (path1.indexOf nb)) ++ [nb]).toFinset ∈ s.cycles
          then s else _).visited = _ ∧ _
        rw [if_pos hc]
        exact ⟨rfl, rfl, [], by simp⟩
      · refine Or.inr ?_
        show (if ((path1.drop (path1.indexOf nb)) ++ [nb]).toFinset ∈ s.cycles
          then s else _).visited = _ ∧ _
        rw [if_neg hc]
        exact ⟨rfl, rfl, [((path1.drop (path1.indexOf nb)) ++ [nb]).toFinset], rfl⟩
    · rw [if_neg hr]
      exact Or.inr ⟨rfl, rfl, [], by simp⟩

theorem dfsRun_visited_mono (g : Nat → List Nat) :
    ∀ (fuel node : Nat) (path : List Nat) (st : DfsState),
      st.visited ⊆ (dfsRun g fuel node path st).visited := by
  intro fuel
  induction fuel with
  | zero =>
    intro node path st
    exact Finset.Subset.refl _
  | succ fuel ih =>
    have hfold : ∀ (L : List Nat) (path1 : List Nat) (s : DfsState),
        s.visited ⊆ (L.foldl (dfsStep g fuel path1) s).visited := by
      intro L
      induction L with
      | nil => intro path1 s; exact Finset.Subset.refl _
      | cons nb rest ihL =>
        intro path1 s
        rw [List.foldl_cons]
        refine Finset.Subset.trans ?_ (ihL path1 (dfsStep g fuel path1 s nb))
        rcases dfsStep_cases g fuel path1 s nb with ⟨heq, _⟩ | ⟨hv, _, _⟩
        · rw [heq]; exact ih nb path1 s
        · rw [hv]
    intro node path st
    show st.visited ⊆ ((List.foldl (dfsStep g fuel (path ++ [node]))
      ⟨insert node st.visited, insert node st.recStack, st.cycles⟩
      (g node)).visited)
    exact Finset.Subset.trans (Finset.subset_insert node st.visited)
      (hfold (g node) (path ++ [node])
        ⟨insert node st.visited, insert node st.recStack, st.cycles⟩)

theorem dfsRun_keeps_stack (g : Nat → List Nat) :
    ∀ (fuel node : Nat) (path : List Nat) (st : DfsState) (x : Nat),
      x ∈ st.recStack → x ∈ st.visited → node ∉ st.visited →
      x ∈ (dfsRun g fuel node path st).recStack ∧
        x ∈ (dfsRun g fuel node path st).visited := by
  intro fuel
  induction fuel with
  | zero =>
    intro node path st x h1 h2 _
    exact ⟨h1, h2⟩
  | succ fuel ih =>
    have hfold : ∀ (L : List Nat) (path1 : List Nat) (s : DfsState) (x : Nat),
        x ∈ s.recStack → x ∈ s.visited →
        x ∈ ((L.foldl (dfsStep g fuel path1) s)).recStack ∧
          x ∈ ((L.foldl (dfsStep g fuel path1) s)).visited := by
      intro L
      induction L with
      | nil => intro path1 s x h1 h2; exact ⟨h1, h2⟩
      | cons nb rest ihL =>
        intro path1 s x h1 h2
        rw [List.foldl_cons]
        have hstep : x ∈ (dfsStep g fuel path1 s nb).recStack ∧
            x ∈ (dfsStep g fuel path1 s nb).visited := by
          rcases dfsStep_cases g fuel path1 s nb with ⟨heq, hnv⟩ | ⟨hv, hr, _, _⟩
          · rw [heq]; exact ih nb path1 s x h1 h2 hnv
          · rw [hv, hr]; exact ⟨h1, h2⟩
        exact ihL path1 (dfsStep g fuel path1 s nb) x hstep.1 hstep.2
    intro node path st x h1 h2 h3
    have hne : x ≠ node := fun heq => h3 (heq ▸ h2)
    have hmain := hfold (g node) (path ++ [node])
      ⟨insert node st.visited, insert node st.recStack, st.cycles⟩ x
      (Finset.mem_insert_of_mem h1) (Finset.mem_insert_of_mem h2)
    exact ⟨Finset.mem_erase.mpr ⟨hne, hmain.1⟩, hmain.2⟩

theorem dfsRun_cycles_mono (g : Nat → List Nat) :
    ∀ (fuel node : Nat) (path : List Nat) (st : DfsState) (c : Finset Nat),
      c ∈ st.cycles → c ∈ (dfsRun g fuel node path st).cycles := by
  intro fuel
  induction fuel with
  | zero =>
    intro node path st c hc
    exact hc
  | succ fuel ih =>
    have hfold : ∀ (L : List Nat) (path1 : List Nat) (s : DfsState) (c : Finset Nat),
        c ∈ s.cycles → c ∈ ((L.foldl (dfsStep g fuel path1) s)).cycles := by
      intro L
      induction L with
      | nil => intro path1 s c hc; exact hc
      | cons nb rest ihL =>
        intro path1 s c hc
        rw [List.foldl_cons]
        refine ihL path1 (dfsStep g fuel path1 s nb) c ?_
        rcases dfsStep_cases g fuel path1 s nb with ⟨heq, _⟩ | ⟨_, _, tail, hcy⟩
        · rw [heq]; exact ih nb path1 s c hc
        · rw [hcy]; exact List.mem_append_left _ hc
    intro node path st c hc
    exact hfold (g node) (path ++ [node])
      ⟨insert node st.visited, insert node st.recStack, st.cycles⟩ c hc

theorem foldl_dfsStep_keeps_stack (g : Nat → List Nat) (fuel : Nat)
    (path1 : List Nat) :
    ∀ (L : List Nat) (s : DfsState) (x : Nat),
      x ∈ s.recStack → x ∈ s.visited →
      x ∈ (L.foldl (dfsStep g fuel path1) s).recStack ∧
        x ∈ (L.foldl (dfsStep g fuel path1) s).visited := by
  intro L
  induction L with
  | nil => intro s x h1 h2; exact ⟨h1, h2⟩
  | cons nb rest ihL =>
    intro s x h1 h2
    rw [List.foldl_cons]
    have hstep : x ∈ (dfsStep g fuel path1 s nb).recStack ∧
        x ∈ (dfsStep g fuel path1 s nb).visited := by
      rcases dfsStep_cases g fuel path1 s nb with ⟨heq, hnv⟩ | ⟨hv, hr, _, _⟩
      · rw [heq]; exact dfsRun_keeps_stack g fuel nb path1 s x h1 h2 hnv
      · rw [hv, hr]; exact ⟨h1, h2⟩
    exact ihL (dfsStep g fuel path1 s nb) x hstep.1 hstep.2

theorem foldl_dfsStep_cycles_mono (g : Nat → List Nat) (fuel : Nat)
    (path1 : List Nat) :
    ∀ (L : List Nat) (s : DfsState) (c : Finset Nat),
      c ∈ s.cycles → c ∈ (L.foldl (dfsStep g fuel path1) s).cycles := by
  intro L
  induction L with
  | nil => intro s c hc; exact hc
  | cons nb rest ihL =>
    intro s c hc
    rw [List.foldl_cons]
    refine ihL (dfsStep g fuel path1 s nb) c ?_
    rcases dfsStep_cases g fuel path1 s nb with ⟨heq, _⟩ | ⟨_, _, tail, hcy⟩
    · rw [heq]; exact dfsRun_cycles_mono g fuel nb path1 s c hc
    · rw [hcy]; exact List.mem_append_left _ hc

theorem indexOf_append_self (m : Nat) (path : List Nat) (hm : m ∉ path) :
    (path ++ [m]).indexOf m = path.length := by
  induction path with
  | nil => simp
  | cons a rest ih =>
    have hne : a ≠ m := fun h => hm (h ▸ List.mem_cons_self a rest)
    have hm' : m ∉ rest := fun hmem => hm (List.mem_cons_of_mem a hmem)
    simp [List.indexOf_cons, hne, ih hm']

theorem dfsRun_selfloop (g : Nat → List Nat) (m : Nat) (hm : m ∈ g m) :
    ∀ (fuel node : Nat) (path : List Nat) (st : DfsState),
      node ∉ st.visited → (∀ x ∈ path, x ∈ st.visited) →
      (m ∈ st.visited → ({m} : Finset Nat) ∈ st.cycles) →
      (m ∈ (dfsRun g fuel node path st).visited →
        ({m} : Finset Nat) ∈ (dfsRun g fuel node path st).cycles) := by
  intro fuel
  induction fuel with
  | zero =>
    intro node path st _ _ hinv
    exact hinv
  | succ fuel ih =>
    intro node path st hnode hpath hinv
    by_cases hnm : node = m
    · subst hnm
      intro _
      show ({node} : Finset Nat) ∈ ((List.foldl (dfsStep g fuel (path ++ [node]))
        ⟨insert node st.visited, insert node st.recStack, st.cycles⟩
        (g node)).cycles)
      obtain ⟨L1, L2, hL⟩ := List.append_of_mem hm
      rw [hL, List.foldl_append, List.foldl_cons]
      set s1 := L1.foldl (dfsStep g fuel (path ++ [node]))
        ⟨insert node st.visited, insert node st.recStack, st.cycles⟩ with hs1
      have hstack : node ∈ s1.recStack ∧ node ∈ s1.visited :=
        foldl_dfsStep_keeps_stack g fuel (path ++ [node]) L1 _ node
          (Finset.mem_insert_self _ _) (Finset.mem_insert_self _ _)
      have hrec : ({node} : Finset Nat) ∈
          (dfsStep g fuel (path ++ [node]) s1 node).cycles := by
        unfold dfsStep
        rw [if_neg (fun hcon => hcon hstack.2), if_pos hstack.1]
        have hmp : node ∉ path := fun hmem => hnode (hpath node hmem)
        have hidx : ((path ++ [node]).indexOf node) = path.length :=
          indexOf_append_self node path hmp
        have hcyceq : (((path ++ [node]).drop ((path ++ [node]).indexOf node))
            ++ [node]).toFinset = ({node} : Finset Nat) := by
          rw [hidx, List.drop_left]
          simp
        show ({node} : Finset Nat) ∈
          (if (((path ++ [node]).drop ((path ++ [node]).indexOf node))
              ++ [node]).toFinset ∈ s1.cycles then s1
           else ⟨s1.visited, s1.recStack, s1.cycles ++
              [(((path ++ [node]).drop ((path ++ [node]).indexOf node))
                ++ [node]).toFinset]⟩ : DfsState).cycles
        rw [hcyceq]
        split_ifs with hdup
        · exact hdup
        · exact List.mem_append_right _ (by simp)
      exact foldl_dfsStep_cycles_mono g fuel (path ++ [node]) L2 _ _ hrec
    · have hJ : ∀ (L : List Nat) (s : DfsState),
          (∀ x ∈ path ++ [node], x ∈ s.visited) →
          (m ∈ s.visited → ({m} : Finset Nat) ∈ s.cycles) →
          ((∀ x ∈ path ++ [node],
              x ∈ (L.foldl (dfsStep g fuel (path ++ [node])) s).visited) ∧
            (m ∈ (L.foldl (dfsStep g fuel (path ++ [node])) s).visited →
              ({m} : Finset Nat) ∈
                (L.foldl (dfsStep g fuel (path ++ [node])) s).cycles)) := by
        intro L
        induction L with
        | nil =>
          intro s hp hi
          exact ⟨hp, hi⟩
        | cons nb rest ihL =>
          intro s hp hi
          rw [List.foldl_cons]
          apply ihL
          · rcases dfsStep_cases g fuel (path ++ [node]) s nb with
              ⟨heq, _⟩ | ⟨hv, _, _, _⟩
            · rw [heq]
              intro x hx
              exact dfsRun_visited_mono g fuel nb (path ++ [node]) s (hp x hx)
            · rw [hv]
              exact hp
          · rcases dfsStep_cases g fuel (path ++ [node]) s nb with
              ⟨heq, hnv⟩ | ⟨hv, _, tail, hcy⟩
            · rw [heq]
              exact ih nb (path ++ [node]) s hnv hp hi
            · rw [hv, hcy]
              intro hmem
              exact List.mem_append_left _ (hi hmem)
      intro hmem
      have hstart1 : ∀ x ∈ path ++ [node],
          x ∈ (⟨insert node st.visited, insert node st.recStack,
            st.cycles⟩ : DfsState).visited := by
        intro x hx
        rcases List.mem_append.mp hx with hxp | hxn
        · exact Finset.mem_insert_of_mem (hpath x hxp)
        · have hx2 : x = node := List.mem_singleton.mp hxn
          subst hx2
          exact Finset.mem_insert_self _ _
      have hstart2 : m ∈ (⟨insert node st.visited, insert node st.recStack,
          st.cycles⟩ : DfsState).visited →
          ({m} : Finset Nat) ∈
            (⟨insert node st.visited, insert node st.recStack,
              st.cycles⟩ : DfsState).cycles := by
        intro hmm
        rcases Finset.mem_insert.mp hmm with heq | hold
        · exact absurd heq.symm hnm
        · exact hinv hold
      have hend := hJ (g node)
        ⟨insert node st.visited, insert node st.recStack, st.cycles⟩
        hstart1 hstart2
      exact hend.2 hmem

theorem find_id_of_nodup : ∀ (l : List TaskItem),
    (l.map TaskItem.id).Nodup → ∀ t ∈ l,
      l.find? (fun a => a.id == t.id) = some t := by
  intro l
  induction l with
  | nil =>
    intro _ t ht
    cases ht
  | cons a rest ih =>
    intro hnd t ht
    rw [List.map_cons, List.nodup_cons] at hnd
    rcases List.mem_cons.mp ht with rfl | htr
    · exact List.find?_cons_of_pos _ (by simp)
    · have hne : a.id ≠ t.id := by
        intro heq
        exact hnd.1 (heq ▸ List.mem_map_of_mem TaskItem.id htr)
      rw [List.find?_cons_of_neg _ (by simp [hne])]
      exact ih hnd.2 t htr

theorem graphGet_self (tasks : List TaskItem)
    (hnd : (tasks.map TaskItem.id).Nodup) (t : TaskItem) (ht : t ∈ tasks) :
    graphGet tasks t.id = t.dependencies := by
  unfold graphGet
  have h1 : tasks.reverse.find? (fun a => a.id == t.id) = some t := by
    apply find_id_of_nodup
    · rw [List.map_reverse]
      exact List.nodup_reverse.mpr hnd
    · exact List.mem_reverse.mpr ht
  rw [h1]

theorem dfsRun_visits_self (g : Nat → List Nat) (fuel node : Nat)
    (path : List Nat) (st : DfsState) :
    node ∈ (dfsRun g (fuel + 1) node path st).visited := by
  show node ∈ ((List.foldl (dfsStep g fuel (path ++ [node]))
    ⟨insert node st.visited, insert node st.recStack, st.cycles⟩
    (g node)).visited)
  exact (foldl_dfsStep_keeps_stack g fuel (path ++ [node]) (g node) _ node
    (Finset.mem_insert_self _ _) (Finset.mem_insert_self _ _)).2

theorem topStep_selfloop_inv (g : Nat → List Nat) (fuel m : Nat)
    (hm : m ∈ g m) (s : DfsState) (a : TaskItem)
    (hi : m ∈ s.visited → ({m} : Finset Nat) ∈ s.cycles) :
    m ∈ (topStep g fuel s a).visited →
      ({m} : Finset Nat) ∈ (topStep g fuel s a).cycles := by
  unfold topStep
  by_cases hid : a.id ∉ s.visited
  · rw [if_pos hid]
    exact dfsRun_selfloop g m hm fuel a.id [] s hid
      (fun x hx => absurd hx (List.not_mem_nil x)) hi
  · rw [if_neg hid]
    exact hi

theorem topStep_cycles_mono (g : Nat → List Nat) (fuel : Nat) (s : DfsState)
    (a : TaskItem) (c : Finset Nat) (hc : c ∈ s.cycles) :
    c ∈ (topStep g fuel s a).cycles := by
  unfold topStep
  by_cases hid : a.id ∉ s.visited
  · rw [if_pos hid]
    exact dfsRun_cycles_mono g fuel a.id [] s c hc
  · rw [if_neg hid]
    exact hc

theorem foldl_topStep_cycles_mono (g : Nat → List Nat) (fuel : Nat) :
    ∀ (L : List TaskItem) (s : DfsState) (c : Finset Nat),
      c ∈ s.cycles → c ∈ (L.foldl (topStep g fuel) s).cycles := by
  intro L
  induction L with
  | nil => intro s c hc; exact hc
  | cons a rest ihL =>
    intro s c hc
    rw [List.foldl_cons]
    exact ihL (topStep g fuel s a) c (topStep_cycles_mono g fuel s a c hc)

theorem topStep_visits_self (g : Nat → List Nat) (k : Nat) (s : DfsState)
    (t : TaskItem) : t.id ∈ (topStep g (k + 1) s t).visited := by
  unfold topStep
  by_cases hid : t.id ∉ s.visited
  · rw [if_pos hid]
    exact dfsRun_visits_self g k t.id [] s
  · rw [if_neg hid]
    exact of_not_not hid

theorem topStep_selfloop_found (g : Nat → List Nat) (k m : Nat)
    (hm : m ∈ g m) (s : DfsState) (t : TaskItem) (hid : t.id = m)
    (hi : m ∈ s.visited → ({m} : Finset Nat) ∈ s.cycles) :
    ({m} : Finset Nat) ∈ (topStep g (k + 1) s t).cycles := by
  have h1 : m ∈ (topStep g (k + 1) s t).visited :=
    hid ▸ topStep_visits_self g k s t
  exact topStep_selfloop_inv g (k + 1) m hm s t hi h1

theorem detect_aux_selfloop (g : Nat → List Nat) (k m : Nat) (hm : m ∈ g m) :
    ∀ (tasks : List TaskItem) (s : DfsState),
      (m ∈ s.visited → ({m} : Finset Nat) ∈ s.cycles) →
      ∀ t ∈ tasks, t.id = m →
      ({m} : Finset Nat) ∈ (tasks.foldl (topStep g (k + 1)) s).cycles := by
  intro tasks
  induction tasks with
  | nil =>
    intro s _ t ht
    cases ht
  | cons a rest ih =>
    intro s hi t ht hid
    rw [List.foldl_cons]
    rcases List.mem_cons.mp ht with rfl | htr
    · have hfound := topStep_selfloop_found g k m hm s t hid hi
      exact foldl_topStep_cycles_mono g (k + 1) rest _ _ hfound
    · exact ih (topStep g (k + 1) s a)
        (topStep_selfloop_inv g (k + 1) m hm s a hi) t htr hid

/-- C9 (amended): provided all task identifiers in the list are pairwise
distinct, every task whose dependencies list contains its own identifier (a
self-loop) makes `detect_circular_dependencies` report the singleton cycle
containing that identifier.  (With duplicate identifiers the adjacency
dictionary keeps only the last task's dependencies, so a self-loop on an
earlier duplicate can go unreported — see the counterexample.) -/
theorem C9_selfloop_singleton_cycle (tasks : List TaskItem)
    (hnd : (tasks.map TaskItem.id).Nodup) (t : TaskItem) (ht : t ∈ tasks)
    (hself : t.id ∈ t.dependencies) :
    ({t.id} : Finset Nat) ∈ detect_circular_dependencies tasks := by
  rw [detect_eq_foldl_topStep]
  have hgm : t.id ∈ graphGet tasks t.id := by
    rw [graphGet_self tasks hnd t ht]
    exact hself
  exact detect_aux_selfloop (graphGet tasks)
    (tasks.length + (tasks.map (fun x => x.dependencies.length)).sum) t.id hgm
    tasks ⟨∅, ∅, []⟩ (fun hx => absurd hx (Finset.not_mem_empty _)) t ht rfl

/-- Witness for the amended C9: a single self-looping task produces its
singleton cycle. -/
theorem C9_selfloop_singleton_cycle_witness :
    ({1} : Finset Nat) ∈
      detect_circular_dependencies [⟨1, none, none, none, [1]⟩] :=
  C9_selfloop_singleton_cycle [⟨1, none, none, none, [1]⟩] (by decide)
    ⟨1, none, none, none, [1]⟩ (by decide) (by decide)
